import Mathlib

/-
Shallow embedding of the reactive core of `src/response.js`
(classes Vue / Observer / Dep / Watcher).

JavaScript values are modelled first-order: primitives plus references
into a heap of objects.  Each object field is either a plain data slot
(`raw`, a property never touched by `defineReactive`) or an intercepted
accessor pair (`reactive`, the closure variable `val` together with the
index of the per-field `Dep`).  The mutable runtime state `St` carries
the heap, the `Dep.subs` lists, the constructed watchers, the global
`Dep.target` slot and an event log that records `addSub` calls,
`update()` invocations and callback invocations, so that theorems can
speak about what happened and in which order.

JavaScript exceptions are modelled with `Except`: every stateful
operation returns `Except JSErr α × St`, the state at the moment the
exception escaped being preserved (there is no `try/finally` anywhere in
the source, so a throw simply aborts the rest of the caller).
-/

namespace Reactive

/-- JavaScript primitive values (the model uses integer numbers; `NaN`
and `-0`, for which `===` is not structural, do not occur). -/
inductive Prim where
  | undef
  | null
  | num (n : Int)
  | str (s : String)
  | bool (b : Bool)
deriving DecidableEq, Repr

/-- A JavaScript value: a primitive or a reference to a heap object.
`===` on this model is structural equality (reference equality for
objects, value equality for primitives). -/
inductive Value where
  | prim (p : Prim)
  | ref (a : Nat)
deriving DecidableEq, Repr

/-- One property of a heap object: either an ordinary data property, or
the accessor pair installed by `Observer.defineReactive`, holding the
closure variable `val` and the index of the field's `Dep`. -/
inductive FieldSlot where
  | raw (v : Value)
  | reactive (val : Value) (dep : Nat)
deriving DecidableEq, Repr

/-- A heap object: its own enumerable properties in definition order.
`isArray` marks JavaScript arrays (for which `typeof` is still
`'object'`, and whose enumerable own keys are the element indices). -/
structure Obj where
  isArray : Bool
  fields : List (String × FieldSlot)
deriving DecidableEq, Repr

/-- Errors that can propagate: the `TypeError` thrown by reading a
property of `undefined`/`null` (it carries the property name and the
absent base value, which is all a JS `TypeError` message identifies),
and an error thrown by a user callback. -/
inductive JSErr where
  | typeError (prop : String) (base : Value)
  | userErr
deriving DecidableEq, Repr

/-- Log events: `dep.addSub(watcher)`, entry into `watcher.update()`,
and the invocation `this.cb(value)` (with the value of `Dep.target` at
the moment of the call, for observability). -/
inductive Event where
  | addSub (d : Nat) (w : Nat)
  | update (w : Nat)
  | cbCall (w : Nat) (v : Value) (tgt : Option Nat)
deriving DecidableEq, Repr

/-- Deep-embedded watcher callbacks: do nothing; throw iff the argument
equals a given value; or read a key path from a root (the text-node
callbacks in `Compile` only touch the DOM — `noop` models them; a
callback that reads reactive data is modelled by `readPath`). -/
inductive Callback where
  | noop
  | failIf (bad : Value)
  | readPath (root : Value) (path : List String)
deriving DecidableEq, Repr

/-- The fields of a `Watcher` instance: `this.vm`, `this.key` (already
split on `"."` into segments) and `this.cb`. -/
structure WData where
  vm : Value
  key : List String
  cb : Callback
deriving DecidableEq, Repr

/-- The mutable runtime state: the object heap, the `subs` list of every
`Dep` (indexed by dep id), the constructed watchers (indexed by watcher
id), the global `Dep.target` slot, and the event log. -/
structure St where
  heap : List Obj
  deps : List (List Nat)
  watchers : List WData
  target : Option Nat
  log : List Event
deriving DecidableEq, Repr

deriving instance DecidableEq for Except

/-- The empty initial state. -/
def st0 : St := ⟨[], [], [], none, []⟩

/-- Association-list lookup of an own property. -/
def findSlot : List (String × FieldSlot) → String → Option FieldSlot
  | [], _ => none
  | (k', sl) :: rest, k => if k' = k then some sl else findSlot rest k

/-- Association-list update (or append) of an own property. -/
def putSlot : List (String × FieldSlot) → String → FieldSlot → List (String × FieldSlot)
  | [], k, sl => [(k, sl)]
  | (k', sl') :: rest, k, sl =>
    if k' = k then (k, sl) :: rest else (k', sl') :: putSlot rest k sl

/-- `Dep.prototype.addSub`: push the watcher onto `this.subs`
(unconditionally — no deduplication in the source). -/
def addSub (s : St) (d w : Nat) : St :=
  { s with deps := s.deps.set d (s.deps.getD d [] ++ [w]),
           log := s.log ++ [.addSub d w] }

/-- Append one event to the log. -/
def logEv (s : St) (e : Event) : St :=
  { s with log := s.log ++ [e] }

/-- A single property read `v[k]`.  Reading a property of
`undefined`/`null` throws a `TypeError`; reading a missing property (or
a property of another primitive) yields `undefined`; reading a `raw`
property returns its value; reading a `reactive` property runs the
getter of `defineReactive`: if `Dep.target` is set, `dep.addSub(Dep.target)`,
then return the closure variable `val`. -/
def readProp (v : Value) (k : String) (s : St) : Except JSErr Value × St :=
  match v with
  | .prim .undef => (.error (.typeError k v), s)
  | .prim .null => (.error (.typeError k v), s)
  | .prim _ => (.ok (.prim .undef), s)
  | .ref a =>
    match s.heap.get? a with
    | none => (.ok (.prim .undef), s)
    | some o =>
      match findSlot o.fields k with
      | none => (.ok (.prim .undef), s)
      | some (.raw rv) => (.ok rv, s)
      | some (.reactive val dep) =>
        match s.target with
        | none => (.ok val, s)
        | some w => (.ok val, addSub s dep w)

/-- `key.split('.').reduce((v, k) => v[k], root)`: sequential property
reads along the segment list. -/
def resolveVal : List String → Value → St → Except JSErr Value × St
  | [], v, s => (.ok v, s)
  | k :: rest, v, s =>
    match readProp v k s with
    | (.error e, s1) => (.error e, s1)
    | (.ok v1, s1) => resolveVal rest v1 s1

/-- Run a deep-embedded callback on the value passed to it. -/
def runCb : Callback → Value → St → Except JSErr Unit × St
  | .noop, _, s => (.ok (), s)
  | .failIf bad, v, s => if v = bad then (.error .userErr, s) else (.ok (), s)
  | .readPath root p, _, s =>
    match resolveVal p root s with
    | (.error e, s1) => (.error e, s1)
    | (.ok _, s1) => (.ok (), s1)

/-- `Watcher.prototype.update`: re-resolve `this.key` from `this.vm`
(triggering the getters along the way) and invoke `this.cb` with the
resolved value.  `Dep.target` is not touched. -/
def update (w : Nat) (s : St) : Except JSErr Unit × St :=
  match s.watchers.get? w with
  | none => (.ok (), s)
  | some wd =>
    let s1 := logEv s (.update w)
    match resolveVal wd.key wd.vm s1 with
    | (.error e, s2) => (.error e, s2)
    | (.ok v, s2) =>
      let s3 := logEv s2 (.cbCall w v s2.target)
      runCb wd.cb v s3

/-- The loop body of `Dep.prototype.notify`: `forEach` over the
snapshot of `subs` taken at loop entry (elements pushed during the
iteration are beyond the captured length and are not visited); an
exception from one `update()` aborts the rest of the iteration. -/
def notifyGo : List Nat → St → Except JSErr Unit × St
  | [], s => (.ok (), s)
  | w :: ws, s =>
    match update w s with
    | (.error e, s1) => (.error e, s1)
    | (.ok _, s1) => notifyGo ws s1

/-- `Dep.prototype.notify`: call `update()` on every recorded watcher,
in recording order. -/
def notify (d : Nat) (s : St) : Except JSErr Unit × St :=
  notifyGo (s.deps.getD d []) s

/-- Replace one property slot of the object at address `a`. -/
def setSlot (s : St) (a : Nat) (k : String) (sl : FieldSlot) : St :=
  match s.heap.get? a with
  | none => s
  | some o => { s with heap := s.heap.set a { o with fields := putSlot o.fields k sl } }

/-- A property write `o[k] = nv` on the object at address `a`.  Writing
a `raw` (or missing) property is a plain assignment.  Writing a
`reactive` property runs the setter of `defineReactive`: if
`val === newVal`, return with no side effect at all; otherwise assign
`val = newVal` and call `dep.notify()`.  The newly assigned value is not
re-observed (the source never converts values assigned after
conversion). -/
def setProp (a : Nat) (k : String) (nv : Value) (s : St) : Except JSErr Unit × St :=
  match s.heap.get? a with
  | none => (.ok (), s)
  | some o =>
    match findSlot o.fields k with
    | none => (.ok (), setSlot s a k (.raw nv))
    | some (.raw _) => (.ok (), setSlot s a k (.raw nv))
    | some (.reactive val dep) =>
      if val = nv then (.ok (), s)
      else notify dep (setSlot s a k (.reactive nv dep))

/-- The state at the start of `new Watcher(vm, key, cb)`'s discovery
pass: the watcher's fields are stored and `Dep.target` points at it. -/
def discState (vm : Value) (key : List String) (cb : Callback) (s : St) : St :=
  { s with watchers := s.watchers ++ [⟨vm, key, cb⟩], target := some s.watchers.length }

/-- `new Watcher(vm, key, cb)`: store the fields, set `Dep.target` to
the new watcher, run `this.update()` (the discovery pass plus the
initial callback), then set `Dep.target = null`.  There is no
`try/finally` in the source: if `update()` throws, the constructor
aborts with `Dep.target` still pointing at the new watcher. -/
def mkWatcher (vm : Value) (key : List String) (cb : Callback) (s : St) :
    Except JSErr Nat × St :=
  match update s.watchers.length (discState vm key cb s) with
  | (.error e, s2) => (.error e, s2)
  | (.ok _, s2) => (.ok s.watchers.length, { s2 with target := none })

/-- The watcher ids of the `update` events of a log fragment. -/
def updatesOf (l : List Event) : List Nat :=
  l.filterMap fun e => match e with | .update w => some w | _ => none

/-- The watcher ids of the `cbCall` events of a log fragment. -/
def cbCallsOf (l : List Event) : List Nat :=
  l.filterMap fun e => match e with | .cbCall w _ _ => some w | _ => none

mutual
/-- Plain-data input trees handed to `new Vue({data: ...})` /
`Observer`: a primitive, or an object (`arr` marks arrays, whose
enumerable own keys are their element indices) with a key-ordered field
list. -/
inductive Data where
  | prim (p : Prim)
  | obj (arr : Bool) (fields : DataList)
inductive DataList where
  | nil
  | cons (k : String) (d : Data) (rest : DataList)
end

mutual
/-- `Observer.prototype.observe` on a fresh plain-data tree:
a primitive fails the `typeof data === 'object'` check and is returned
untouched; any object — arrays included, since `typeof [] === 'object'` —
has each own enumerable field run through `defineReactive`:
first recursively observe the field's current value, then create a new
`Dep` for the field and install the accessor pair over the closure
variable `val`.  The resulting object is allocated on the heap. -/
def observe : Data → St → Value × St
  | .prim p, s => (.prim p, s)
  | .obj arr fs, s =>
    let r := observeFields fs s
    (.ref r.2.heap.length, { r.2 with heap := r.2.heap ++ [⟨arr, r.1⟩] })

def observeFields : DataList → St → List (String × FieldSlot) × St
  | .nil, s => ([], s)
  | .cons k d rest, s =>
    let rv := observe d s
    let depId := rv.2.deps.length
    let s2 : St := { rv.2 with deps := rv.2.deps ++ [[]] }
    let rr := observeFields rest s2
    ((k, .reactive rv.1 depId) :: rr.1, rr.2)
end

mutual
/-- Allocation of a plain-data tree as ordinary (non-observed) objects:
what a plain object literal assigned after conversion looks like on the
heap — its properties are `raw`, no `Dep` is attached. -/
def buildRaw : Data → St → Value × St
  | .prim p, s => (.prim p, s)
  | .obj arr fs, s =>
    let r := buildRawFields fs s
    (.ref r.2.heap.length, { r.2 with heap := r.2.heap ++ [⟨arr, r.1⟩] })

def buildRawFields : DataList → St → List (String × FieldSlot) × St
  | .nil, s => ([], s)
  | .cons k d rest, s =>
    let rv := buildRaw d s
    let rr := buildRawFields rest rv.2
    ((k, .raw rv.1) :: rr.1, rr.2)
end

/-- Pure lookup inside a plain-data tree (specification-side index used
to state read-after-conversion properties). -/
def dataListFind : DataList → String → Option Data
  | .nil, _ => none
  | .cons k' d rest, k => if k' = k then some d else dataListFind rest k

/-- Pure key-path lookup inside a plain-data tree. -/
def dataLookup : Data → List String → Option Data
  | d, [] => some d
  | .prim _, _ :: _ => none
  | .obj _ fs, k :: rest =>
    match dataListFind fs k with
    | none => none
    | some d' => dataLookup d' rest

/-- The top-level key names of a data object (what
`Object.keys(this.$data)` enumerates). -/
def dataKeys : DataList → List String
  | .nil => []
  | .cons k _ rest => k :: dataKeys rest

/-- A constructed Vue instance as far as the reactive core is
concerned: the address of the converted `$data` object and the list of
proxied keys.  The `_proxy` accessors store no value of their own — the
instance keeps only this. -/
structure VueInst where
  dataAddr : Nat
  keys : List String
deriving DecidableEq, Repr

/-- `new Vue({data})` restricted to the reactive core: convert `$data`
with `Observer`, then proxy every own key of `$data` (the `Compile`
step only touches the DOM and is outside the core). -/
def mkVue (fs : DataList) (s : St) : VueInst × St :=
  match observe (.obj false fs) s with
  | (.ref a, s1) => (⟨a, dataKeys fs⟩, s1)
  | (_, s1) => (⟨0, dataKeys fs⟩, s1)

/-- A read `vm.k`.  For a proxied key the `_proxy` getter runs
`return this.$data[key]` — a property read on the converted `$data`
object; a non-proxied key is an absent own property, i.e. `undefined`. -/
def vmGet (i : VueInst) (k : String) (s : St) : Except JSErr Value × St :=
  if k ∈ i.keys then readProp (.ref i.dataAddr) k s
  else (.ok (.prim .undef), s)

/-- A write `vm.k = nv`.  For a proxied key the `_proxy` setter runs
`this.$data[key] = newVal` — a property write on the converted `$data`
object (hence through the field's intercepted setter).  Writes to
non-proxied keys create plain properties on the instance and never reach
the reactive core; they are outside the modelled claims and inert here. -/
def vmSet (i : VueInst) (k : String) (nv : Value) (s : St) : Except JSErr Unit × St :=
  if k ∈ i.keys then setProp i.dataAddr k nv s
  else (.ok (), s)

end Reactive


namespace Reactive

mutual
/-- The converted image of a plain-data tree: a primitive is itself; an
object is a heap reference whose every field is a reactive slot holding
the converted image of the corresponding subtree. -/
def valMatches : List Obj → Value → Data → Prop
  | _, v, .prim p => v = .prim p
  | h, v, .obj arr fs =>
    ∃ a o, v = .ref a ∧ h.get? a = some o ∧ o.isArray = arr ∧ fieldsMatch h o.fields fs

/-- Field lists of a converted object: keys in order, every slot
reactive, values matching the subtrees. -/
def fieldsMatch : List Obj → List (String × FieldSlot) → DataList → Prop
  | _, slots, .nil => slots = []
  | h, slots, .cons k d rest =>
    ∃ v dep tail, slots = (k, .reactive v dep) :: tail ∧
      valMatches h v d ∧ fieldsMatch h tail rest
end

/-- The number of segments successfully traversed before resolution
threw: the specification-side index of the failing segment.  (`none`
when resolution does not throw.) -/
def failIdxAux : List String → Value → St → Nat → Option Nat
  | [], _, _, _ => none
  | k :: rest, v, s, i =>
    match readProp v k s with
    | (.error _, _) => some i
    | (.ok v1, s1) => failIdxAux rest v1 s1 (i + 1)

/-- Failing-segment index of a full resolution. -/
def failIdx (p : List String) (v : Value) (s : St) : Option Nat := failIdxAux p v s 0

/-! ### Concrete scenarios used to settle the claims.
Each claim has its own data; none is shared between claims. -/

/-- C1 scenario: `{a: undefined, b: 0}`, then `new Watcher(root, "a.x", noop)`.
Resolution registers the watcher into `a`'s dep and then throws on `.x`. -/
def c1Data : Data :=
  .obj false (.cons "a" (.prim .undef) (.cons "b" (.prim (.num 0)) .nil))

/-- C1: the converted state. -/
def c1S : St := (observe c1Data st0).2

/-- C1: the state left behind by the failed construction. -/
def c1Fail : St := (mkWatcher (.ref 0) ["a", "x"] .noop c1S).2

/-- C2 scenario: `{a: 1}` with watcher 0 whose callback throws on the
value `2` and watcher 1 with a harmless callback, both on key `"a"`. -/
def c2Data : Data := .obj false (.cons "a" (.prim (.num 1)) .nil)

/-- C2: state after both constructions (dep of `a` records `[0, 1]`). -/
def c2S : St :=
  (mkWatcher (.ref 0) ["a"] .noop
    (mkWatcher (.ref 0) ["a"] (.failIf (.prim (.num 2))) (observe c2Data st0).2).2).2

/-- C3 scenario: `{a: 1, b: 2}` and a watcher on `"a"` whose callback
reads `"b"` from the root. -/
def c3Data : Data :=
  .obj false (.cons "a" (.prim (.num 1)) (.cons "b" (.prim (.num 2)) .nil))

/-- C3: the converted state. -/
def c3S : St := (observe c3Data st0).2

/-- C4 scenario A: `{x: undefined}`, path `"x.y"` (fails at index 1). -/
def c4DataA : Data := .obj false (.cons "x" (.prim .undef) .nil)

/-- C4: converted root of scenario A. -/
def c4RootA : Value := (observe c4DataA st0).1

/-- C4: converted state of scenario A. -/
def c4SA : St := (observe c4DataA st0).2

/-- C4 scenario B: `{p: {x: undefined}}`, path `"p.x.y"` (fails at
index 2, different root object). -/
def c4DataB : Data :=
  .obj false (.cons "p" (.obj false (.cons "x" (.prim .undef) .nil)) .nil)

/-- C4: converted root of scenario B. -/
def c4RootB : Value := (observe c4DataB st0).1

/-- C4: converted state of scenario B. -/
def c4SB : St := (observe c4DataB st0).2

/-- C5 scenario: `{xs: [7]}` — an object holding a one-element array. -/
def c5Data : Data :=
  .obj false (.cons "xs" (.obj true (.cons "0" (.prim (.num 7)) .nil)) .nil)

/-- C6 scenario: `{a: undefined}`; the watcher on `"a.b"` registers into
`a`'s dep and then fails, leaking `Dep.target`. -/
def c6Data : Data := .obj false (.cons "a" (.prim .undef) .nil)

/-- C6: state after the failed construction. -/
def c6S1 : St := (mkWatcher (.ref 0) ["a", "b"] .noop (observe c6Data st0).2).2

/-- C6: the same state after allocating the plain (unobserved) object
`{b: 5}` that will be assigned to `a`. -/
def c6S2 : St := (buildRaw (.obj false (.cons "b" (.prim (.num 5)) .nil)) c6S1).2

/-- C6 witness scenario: `{a: 1}` with one successfully constructed
watcher, so `Dep.target` is clear. -/
def c6Ok : St :=
  (mkWatcher (.ref 0) ["a"] .noop
    (observe (.obj false (.cons "a" (.prim (.num 1)) .nil)) st0).2).2

/-- C7 scenario: `{a: 1}` with two successfully constructed watchers on
`"a"`, then the write `a = 2`. -/
def c7S : St :=
  (mkWatcher (.ref 0) ["a"] .noop
    (mkWatcher (.ref 0) ["a"] .noop
      (observe (.obj false (.cons "a" (.prim (.num 1)) .nil)) st0).2).2).2

/-- C8 scenario: `{a: 1}` with one watcher on `"a"`. -/
def c8S : St :=
  (mkWatcher (.ref 0) ["a"] .noop
    (observe (.obj false (.cons "a" (.prim (.num 1)) .nil)) st0).2).2

/-- C9 scenario: the top-level fields of the nested object `{a: {b: 5}}`. -/
def c9Fields : DataList :=
  .cons "a" (.obj false (.cons "b" (.prim (.num 5)) .nil)) .nil

/-- C9: the converted state of `{a: {b: 5}}`. -/
def c9S : St := (observe (.obj false c9Fields) st0).2

/-- C10 scenario: `new Vue({data: {k: 1}})` (reactive core only). -/
def c10Fields : DataList := .cons "k" (.prim (.num 1)) .nil

/-- C10: the constructed instance. -/
def c10Vm : VueInst := (mkVue c10Fields st0).1

/-- C10: the state after construction. -/
def c10S : St := (mkVue c10Fields st0).2


/-! ### Generic list facts -/

theorem get_append_some {α : Type} {l1 : List α} (l2 : List α) {n : Nat} {x : α}
    (h : l1.get? n = some x) : (l1 ++ l2).get? n = some x := by
  induction l1 generalizing n with
  | nil => simp at h
  | cons a t ih =>
    cases n with
    | zero => simpa using h
    | succ m => simpa using ih (by simpa using h)

theorem get_concat_self {α : Type} (l : List α) (x : α) :
    (l ++ [x]).get? l.length = some x := by
  induction l with
  | nil => rfl
  | cons a t ih =>
    simp only [List.cons_append, List.length_cons, List.get?_cons_succ]
    exact ih

theorem get_set_some {α : Type} {l : List α} {n : Nat} {x : α} (y : α)
    (h : l.get? n = some x) : (l.set n y).get? n = some y := by
  induction l generalizing n with
  | nil => simp at h
  | cons a t ih =>
    cases n with
    | zero => rfl
    | succ m => simpa using ih (by simpa using h)

theorem getD_of_get {α : Type} {l : List α} {n : Nat} {x : α} (d : α)
    (h : l.get? n = some x) : l.getD n d = x := by
  simp [List.getD, ← List.get?_eq_getElem?, h]

theorem updatesOf_cons_update (w : Nat) (t : List Event) :
    updatesOf (Event.update w :: t) = w :: updatesOf t := rfl

theorem updatesOf_cons_cbCall (w : Nat) (v : Value) (tg : Option Nat) (t : List Event) :
    updatesOf (Event.cbCall w v tg :: t) = updatesOf t := rfl

theorem cbCallsOf_cons_update (w : Nat) (t : List Event) :
    cbCallsOf (Event.update w :: t) = cbCallsOf t := rfl

theorem cbCallsOf_cons_cbCall (w : Nat) (v : Value) (tg : Option Nat) (t : List Event) :
    cbCallsOf (Event.cbCall w v tg :: t) = w :: cbCallsOf t := rfl

theorem updatesOf_append (l1 l2 : List Event) :
    updatesOf (l1 ++ l2) = updatesOf l1 ++ updatesOf l2 := by
  simp [updatesOf]

theorem cbCallsOf_append (l1 l2 : List Event) :
    cbCallsOf (l1 ++ l2) = cbCallsOf l1 ++ cbCallsOf l2 := by
  simp [cbCallsOf]

/-! ### What a single getter invocation can do to the state -/

theorem readProp_cases (v : Value) (k : String) (s : St) :
    (readProp v k s).2 = s ∨
      ∃ d w, s.target = some w ∧ (readProp v k s).2 = addSub s d w := by
  unfold readProp
  repeat' split
  all_goals try (left; rfl)
  all_goals (right; exact ⟨_, _, by assumption, rfl⟩)

/-! ### Frame lemmas: heap, `Dep.target` and the watcher table are
untouched by reads, callbacks, `update()` and `notify()` -/

theorem readProp_frame (v : Value) (k : String) (s : St) :
    ((readProp v k s).2).heap = s.heap ∧ ((readProp v k s).2).target = s.target ∧
      ((readProp v k s).2).watchers = s.watchers ∧
      ((readProp v k s).2).deps.length = s.deps.length := by
  rcases readProp_cases v k s with h | ⟨d, w, _, h⟩ <;> simp [h, addSub]

theorem resolveVal_frame (p : List String) (v : Value) (s : St) :
    ((resolveVal p v s).2).heap = s.heap ∧ ((resolveVal p v s).2).target = s.target ∧
      ((resolveVal p v s).2).watchers = s.watchers ∧
      ((resolveVal p v s).2).deps.length = s.deps.length := by
  induction p generalizing v s with
  | nil => exact ⟨rfl, rfl, rfl, rfl⟩
  | cons k rest ih =>
    obtain ⟨h1, h2, h3, h4⟩ := readProp_frame v k s
    rcases h : readProp v k s with ⟨r, s1⟩
    rw [h] at h1 h2 h3 h4
    unfold resolveVal
    rw [h]
    cases r with
    | error e => exact ⟨h1, h2, h3, h4⟩
    | ok v1 =>
      obtain ⟨i1, i2, i3, i4⟩ := ih v1 s1
      exact ⟨i1.trans h1, i2.trans h2, i3.trans h3, i4.trans h4⟩

theorem runCb_frame (cb : Callback) (v : Value) (s : St) :
    ((runCb cb v s).2).heap = s.heap ∧ ((runCb cb v s).2).target = s.target ∧
      ((runCb cb v s).2).watchers = s.watchers ∧
      ((runCb cb v s).2).deps.length = s.deps.length := by
  cases cb with
  | noop => exact ⟨rfl, rfl, rfl, rfl⟩
  | failIf bad => by_cases hv : v = bad <;> simp [runCb, hv]
  | readPath root p =>
    obtain ⟨h1, h2, h3, h4⟩ := resolveVal_frame p root s
    rcases h : resolveVal p root s with ⟨r, s1⟩
    rw [h] at h1 h2 h3 h4
    simp only [runCb]
    rw [h]
    cases r with
    | error e => exact ⟨h1, h2, h3, h4⟩
    | ok v1 => exact ⟨h1, h2, h3, h4⟩

theorem update_frame (w : Nat) (s : St) :
    ((update w s).2).heap = s.heap ∧ ((update w s).2).target = s.target ∧
      ((update w s).2).watchers = s.watchers ∧
      ((update w s).2).deps.length = s.deps.length := by
  rcases hw : s.watchers.get? w with _ | wd
  · simp only [update, hw]
    refine ⟨?_, ?_, ?_, ?_⟩ <;> first | rfl | trivial
  · obtain ⟨h1, h2, h3, h4⟩ := resolveVal_frame wd.key wd.vm (logEv s (.update w))
    rcases h : resolveVal wd.key wd.vm (logEv s (.update w)) with ⟨r, s2⟩
    rw [h] at h1 h2 h3 h4
    simp only [logEv] at h1 h2 h3 h4
    simp only [update, hw, h]
    cases r with
    | error e => exact ⟨h1, h2, h3, h4⟩
    | ok v =>
      obtain ⟨c1, c2, c3, c4⟩ := runCb_frame wd.cb v (logEv s2 (.cbCall w v s2.target))
      simp only [logEv] at c1 c2 c3 c4
      exact ⟨c1.trans h1, c2.trans h2, c3.trans h3, c4.trans h4⟩

theorem notifyGo_frame (ws : List Nat) (s : St) :
    ((notifyGo ws s).2).heap = s.heap ∧ ((notifyGo ws s).2).target = s.target ∧
      ((notifyGo ws s).2).watchers = s.watchers ∧
      ((notifyGo ws s).2).deps.length = s.deps.length := by
  induction ws generalizing s with
  | nil => exact ⟨rfl, rfl, rfl, rfl⟩
  | cons w rest ih =>
    obtain ⟨h1, h2, h3, h4⟩ := update_frame w s
    rcases h : update w s with ⟨r, s1⟩
    rw [h] at h1 h2 h3 h4
    unfold notifyGo
    rw [h]
    cases r with
    | error e => exact ⟨h1, h2, h3, h4⟩
    | ok _ =>
      obtain ⟨i1, i2, i3, i4⟩ := ih s1
      exact ⟨i1.trans h1, i2.trans h2, i3.trans h3, i4.trans h4⟩

theorem notify_frame (d : Nat) (s : St) :
    ((notify d s).2).heap = s.heap ∧ ((notify d s).2).target = s.target ∧
      ((notify d s).2).watchers = s.watchers ∧
      ((notify d s).2).deps.length = s.deps.length :=
  notifyGo_frame _ s

end Reactive

namespace Reactive

/-! ### With no active `Dep.target`, reads register nothing -/

theorem readProp_none (v : Value) (k : String) (s : St) (h : s.target = none) :
    (readProp v k s).2 = s := by
  rcases readProp_cases v k s with h1 | ⟨d, w, hw, h1⟩
  · exact h1
  · rw [h] at hw
    exact absurd hw (by simp)

theorem resolveVal_none (p : List String) (v : Value) (s : St) (h : s.target = none) :
    (resolveVal p v s).2 = s := by
  induction p generalizing v s with
  | nil => rfl
  | cons k rest ih =>
    have h1 := readProp_none v k s h
    rcases hr : readProp v k s with ⟨r, s1⟩
    rw [hr] at h1
    unfold resolveVal
    rw [hr]
    cases r with
    | error e => exact h1
    | ok v1 =>
      rw [ih v1 s1 (by rw [show s1 = s from h1]; exact h)]
      exact h1

theorem runCb_none (cb : Callback) (v : Value) (s : St) (h : s.target = none) :
    (runCb cb v s).2 = s := by
  cases cb with
  | noop => rfl
  | failIf bad => by_cases hv : v = bad <;> simp [runCb, hv]
  | readPath root p =>
    have h1 := resolveVal_none p root s h
    rcases hr : resolveVal p root s with ⟨r, s1⟩
    rw [hr] at h1
    simp only [runCb]
    rw [hr]
    cases r with
    | error e => exact h1
    | ok v1 => exact h1

/-- With `Dep.target` clear, `update()` leaves every `Dep.subs` list
(and `Dep.target` itself) untouched: it can only read values and log. -/
theorem update_none_deps (w : Nat) (s : St) (h : s.target = none) :
    ((update w s).2).deps = s.deps ∧ ((update w s).2).target = none := by
  rcases hw : s.watchers.get? w with _ | wd
  · simp only [update, hw]
    exact ⟨trivial, h⟩
  · have h1 := resolveVal_none wd.key wd.vm (logEv s (.update w)) (by simp [logEv, h])
    rcases hr : resolveVal wd.key wd.vm (logEv s (.update w)) with ⟨r, s2⟩
    rw [hr] at h1
    have h1x : s2 = logEv s (.update w) := h1
    simp only [update, hw]
    rw [hr]
    cases r with
    | error e => simp [h1x, logEv, h]
    | ok v =>
      have h2 := runCb_none wd.cb v (logEv s2 (.cbCall w v s2.target))
        (by simp [logEv, h1x, h])
      rw [h2]
      simp [logEv, h1x, h]

/-! ### What each operation appends to the log -/

theorem mem_updatesOf {t : List Event} {w : Nat} (he : Event.update w ∈ t) :
    w ∈ updatesOf t :=
  List.mem_filterMap.mpr ⟨_, he, rfl⟩

theorem mem_cbCallsOf {t : List Event} {w : Nat} {v : Value} {tg : Option Nat}
    (he : Event.cbCall w v tg ∈ t) : w ∈ cbCallsOf t :=
  List.mem_filterMap.mpr ⟨_, he, rfl⟩

/-- In a log fragment with no `update` and no `cbCall` ids, every event
is an `addSub`. -/
theorem addSub_only_mem {t : List Event} (hu : updatesOf t = []) (hc : cbCallsOf t = [])
    {e : Event} (he : e ∈ t) : ∃ d w, e = .addSub d w := by
  cases e with
  | addSub d w => exact ⟨d, w, rfl⟩
  | update w => exact absurd (mem_updatesOf he) (by simp [hu])
  | cbCall w v tg => exact absurd (mem_cbCallsOf he) (by simp [hc])

theorem readProp_log (v : Value) (k : String) (s : St) :
    ∃ t, ((readProp v k s).2).log = s.log ++ t ∧
      updatesOf t = [] ∧ cbCallsOf t = [] := by
  rcases readProp_cases v k s with h | ⟨d, w, _, h⟩
  · exact ⟨[], by simp [h], rfl, rfl⟩
  · exact ⟨[Event.addSub d w], by simp [h, addSub], rfl, rfl⟩

theorem resolveVal_log (p : List String) (v : Value) (s : St) :
    ∃ t, ((resolveVal p v s).2).log = s.log ++ t ∧
      updatesOf t = [] ∧ cbCallsOf t = [] := by
  induction p generalizing v s with
  | nil => exact ⟨[], by simp [resolveVal], rfl, rfl⟩
  | cons k rest ih =>
    obtain ⟨t1, hl1, hu1, hc1⟩ := readProp_log v k s
    rcases hr : readProp v k s with ⟨r, s1⟩
    rw [hr] at hl1
    unfold resolveVal
    rw [hr]
    cases r with
    | error e => exact ⟨t1, hl1, hu1, hc1⟩
    | ok v1 =>
      obtain ⟨t2, hl2, hu2, hc2⟩ := ih v1 s1
      refine ⟨t1 ++ t2, ?_, ?_, ?_⟩
      · rw [hl2, hl1, List.append_assoc]
      · rw [updatesOf_append, hu1, hu2, List.append_nil]
      · rw [cbCallsOf_append, hc1, hc2, List.append_nil]

theorem runCb_log (cb : Callback) (v : Value) (s : St) :
    ∃ t, ((runCb cb v s).2).log = s.log ++ t ∧
      updatesOf t = [] ∧ cbCallsOf t = [] := by
  cases cb with
  | noop => exact ⟨[], by simp [runCb], rfl, rfl⟩
  | failIf bad =>
    by_cases hv : v = bad <;> exact ⟨[], by simp [runCb, hv], rfl, rfl⟩
  | readPath root p =>
    obtain ⟨t1, hl1, hu1, hc1⟩ := resolveVal_log p root s
    rcases hr : resolveVal p root s with ⟨r, s1⟩
    rw [hr] at hl1
    simp only [runCb]
    rw [hr]
    cases r with
    | error e => exact ⟨t1, hl1, hu1, hc1⟩
    | ok v1 => exact ⟨t1, hl1, hu1, hc1⟩

end Reactive

namespace Reactive

/-- A successful `update()` on an existing watcher logs exactly one
`update` entry and one `cbCall` entry for that watcher (plus `addSub`
entries), and the `cbCall` entry carries the entry-time `Dep.target`. -/
theorem update_log_ok (w : Nat) (s : St) (wd : WData)
    (hw : s.watchers.get? w = some wd) (hok : (update w s).1 = .ok ()) :
    ∃ t, ((update w s).2).log = s.log ++ t ∧
      updatesOf t = [w] ∧ cbCallsOf t = [w] := by
  obtain ⟨t1, hl1, hu1, hc1⟩ := resolveVal_log wd.key wd.vm (logEv s (.update w))
  rcases hr : resolveVal wd.key wd.vm (logEv s (.update w)) with ⟨r, s2⟩
  rw [hr] at hl1
  simp only [update, hw, hr] at hok ⊢
  cases r with
  | error e => simp at hok
  | ok v =>
    obtain ⟨t2, hl2, hu2, hc2⟩ := runCb_log wd.cb v (logEv s2 (.cbCall w v s2.target))
    refine ⟨Event.update w :: (t1 ++ (Event.cbCall w v s2.target :: t2)), ?_, ?_, ?_⟩
    · rw [hl2]
      simp only [logEv] at hl1 ⊢
      rw [hl1]
      simp
    · rw [updatesOf_cons_update, updatesOf_append, hu1, updatesOf_cons_cbCall, hu2]
      rfl
    · rw [cbCallsOf_cons_update, cbCallsOf_append, hc1, cbCallsOf_cons_cbCall, hc2]
      rfl

/-- Every log entry present after `update()` was either already there,
or is an `addSub`, or is the `update` entry of this watcher, or is a
`cbCall` of this watcher carrying the entry-time `Dep.target`. -/
theorem update_mem_log (w : Nat) (s : St) {e : Event}
    (he : e ∈ ((update w s).2).log) :
    e ∈ s.log ∨ (∃ d w', e = .addSub d w') ∨ e = .update w ∨
      ∃ v, e = .cbCall w v s.target := by
  rcases hw : s.watchers.get? w with _ | wd
  · simp only [update, hw] at he
    exact Or.inl he
  · obtain ⟨t1, hl1, hu1, hc1⟩ := resolveVal_log wd.key wd.vm (logEv s (.update w))
    rcases hr : resolveVal wd.key wd.vm (logEv s (.update w)) with ⟨r, s2⟩
    rw [hr] at hl1
    have htg : s2.target = s.target := by
      have := (resolveVal_frame wd.key wd.vm (logEv s (.update w))).2.1
      rw [hr] at this
      simpa [logEv] using this
    simp only [update, hw, hr] at he
    cases r with
    | error e2 =>
      simp only [logEv] at hl1
      rw [hl1] at he
      rcases (List.mem_append.mp he) with h2 | h2
      · rcases (List.mem_append.mp h2) with h3 | h3
        · exact Or.inl h3
        · simp at h3
          exact Or.inr (Or.inr (Or.inl h3))
      · obtain ⟨d, w', hdw⟩ := addSub_only_mem hu1 hc1 h2
        exact Or.inr (Or.inl ⟨d, w', hdw⟩)
    | ok v =>
      obtain ⟨t2, hl2, hu2, hc2⟩ := runCb_log wd.cb v (logEv s2 (.cbCall w v s2.target))
      rw [hl2] at he
      simp only [logEv] at hl1 he
      rw [hl1] at he
      rcases (List.mem_append.mp he) with h2 | h2
      · rcases (List.mem_append.mp h2) with h3 | h3
        · rcases (List.mem_append.mp h3) with h4 | h4
          · rcases (List.mem_append.mp h4) with h5 | h5
            · exact Or.inl h5
            · simp at h5
              exact Or.inr (Or.inr (Or.inl h5))
          · obtain ⟨d, w', hdw⟩ := addSub_only_mem hu1 hc1 h4
            exact Or.inr (Or.inl ⟨d, w', hdw⟩)
        · simp at h3
          rw [h3, htg]
          exact Or.inr (Or.inr (Or.inr ⟨v, rfl⟩))
      · obtain ⟨d, w', hdw⟩ := addSub_only_mem hu2 hc2 h2
        exact Or.inr (Or.inl ⟨d, w', hdw⟩)

/-- A successful `forEach`/`update` fan-out over watcher ids `ws` logs
exactly one `update` and one `cbCall` per listed id, in list order. -/
theorem notifyGo_log_ok (ws : List Nat) (s : St)
    (hv : ∀ w ∈ ws, ∃ wd, s.watchers.get? w = some wd)
    (hok : (notifyGo ws s).1 = .ok ()) :
    ∃ t, ((notifyGo ws s).2).log = s.log ++ t ∧
      updatesOf t = ws ∧ cbCallsOf t = ws := by
  induction ws generalizing s with
  | nil => exact ⟨[], by simp [notifyGo], rfl, rfl⟩
  | cons w rest ih =>
    obtain ⟨wd, hwd⟩ := hv w (by simp)
    rcases hu : update w s with ⟨r, s1⟩
    have hfr := (update_frame w s).2.2.1
    rw [hu] at hfr
    unfold notifyGo at hok ⊢
    rw [hu] at hok ⊢
    cases r with
    | error e => simp at hok
    | ok u =>
      obtain ⟨t1, hl1, hu1, hc1⟩ := update_log_ok w s wd hwd (by rw [hu])
      rw [hu] at hl1
      obtain ⟨t2, hl2, hu2, hc2⟩ := ih s1
        (fun w' hw' => by rw [show s1.watchers = s.watchers from hfr]; exact hv w' (by simp [hw']))
        hok
      refine ⟨t1 ++ t2, ?_, ?_, ?_⟩
      · rw [hl2, hl1, List.append_assoc]
      · rw [updatesOf_append, hu1, hu2]
        rfl
      · rw [cbCallsOf_append, hc1, hc2]
        rfl

end Reactive

namespace Reactive

/-! ### The intercepted setter -/

theorem findSlot_putSlot (fs : List (String × FieldSlot)) (k : String) (sl : FieldSlot) :
    findSlot (putSlot fs k sl) k = some sl := by
  induction fs with
  | nil => simp [putSlot, findSlot]
  | cons p rest ih =>
    rcases p with ⟨k', sl'⟩
    by_cases h : k' = k
    · simp [putSlot, h, findSlot]
    · simp [putSlot, h, findSlot, ih]

/-- An unequal write on a reactive slot is: store the new value in the
closure variable, then `dep.notify()`. -/
theorem setProp_reactive (a : Nat) (k : String) (nv : Value) (s : St) (o : Obj)
    (val : Value) (dep : Nat)
    (h1 : s.heap.get? a = some o)
    (h2 : findSlot o.fields k = some (.reactive val dep))
    (hne : ¬ val = nv) :
    setProp a k nv s = notify dep (setSlot s a k (.reactive nv dep)) := by
  simp only [setProp, h1, h2]
  rw [if_neg hne]

/-- An equal write on a reactive slot returns with the state unchanged. -/
theorem setProp_reactive_eq (a : Nat) (k : String) (nv : Value) (s : St) (o : Obj)
    (val : Value) (dep : Nat)
    (h1 : s.heap.get? a = some o)
    (h2 : findSlot o.fields k = some (.reactive val dep))
    (heq : val = nv) :
    setProp a k nv s = (.ok (), s) := by
  simp only [setProp, h1, h2]
  rw [if_pos heq]

/-- The getter on a reactive slot returns the closure variable `val`
(whether or not it also registers `Dep.target`). -/
theorem readProp_reactive_val (a : Nat) (k : String) (s : St) (o : Obj)
    (val : Value) (dep : Nat)
    (h1 : s.heap.get? a = some o)
    (h2 : findSlot o.fields k = some (.reactive val dep)) :
    (readProp (.ref a) k s).1 = .ok val := by
  simp only [readProp, h1, h2]
  cases s.target <;> rfl

/-- The getter on a reactive slot also registers `Dep.target` into the
slot's `Dep` whenever a target is set. -/
theorem readProp_reactive_target (a : Nat) (k : String) (s : St) (o : Obj)
    (val : Value) (dep w : Nat)
    (h1 : s.heap.get? a = some o)
    (h2 : findSlot o.fields k = some (.reactive val dep))
    (ht : s.target = some w) :
    (readProp (.ref a) k s).2 = addSub s dep w := by
  simp only [readProp, h1, h2, ht]

/-- Read-after-write: after any write to a reactive slot (equal or not,
and whether or not the notify fan-out then fails), reading that slot
returns the written value. -/
theorem setProp_then_read (a : Nat) (k : String) (nv : Value) (s : St) (o : Obj)
    (val : Value) (dep : Nat)
    (h1 : s.heap.get? a = some o)
    (h2 : findSlot o.fields k = some (.reactive val dep)) :
    (readProp (.ref a) k ((setProp a k nv s).2)).1 = .ok nv := by
  by_cases he : val = nv
  · rw [setProp_reactive_eq a k nv s o val dep h1 h2 he]
    exact he ▸ readProp_reactive_val a k s o val dep h1 h2
  · rw [setProp_reactive a k nv s o val dep h1 h2 he]
    have hs1 : (setSlot s a k (.reactive nv dep)).heap.get? a
        = some { o with fields := putSlot o.fields k (.reactive nv dep) } := by
      simp only [setSlot, h1]
      exact get_set_some _ h1
    have hnh := (notify_frame dep (setSlot s a k (.reactive nv dep))).1
    have hfin : ((notify dep (setSlot s a k (.reactive nv dep))).2).heap.get? a
        = some { o with fields := putSlot o.fields k (.reactive nv dep) } := by
      rw [hnh]
      exact hs1
    exact readProp_reactive_val a k _ _ nv dep hfin (findSlot_putSlot _ _ _)

end Reactive

namespace Reactive


mutual
theorem valMatches_mono (h l : List Obj) (v : Value) (d : Data)
    (hm : valMatches h v d) : valMatches (h ++ l) v d := by
  cases d with
  | prim p => exact hm
  | obj arr fs =>
    obtain ⟨a, o, hv, hg, ha, hf⟩ := hm
    exact ⟨a, o, hv, get_append_some l hg, ha, fieldsMatch_mono h l o.fields fs hf⟩

theorem fieldsMatch_mono (h l : List Obj) (slots : List (String × FieldSlot))
    (fs : DataList) (hm : fieldsMatch h slots fs) : fieldsMatch (h ++ l) slots fs := by
  cases fs with
  | nil => exact hm
  | cons k d rest =>
    obtain ⟨v, dep, tail, hs, hv, ht⟩ := hm
    exact ⟨v, dep, tail, hs, valMatches_mono h l v d hv, fieldsMatch_mono h l tail rest ht⟩
end

mutual
theorem observe_matches (d : Data) (s : St) :
    (∃ l, ((observe d s).2).heap = s.heap ++ l) ∧
      valMatches ((observe d s).2).heap ((observe d s).1) d := by
  cases d with
  | prim p => exact ⟨⟨[], by simp [observe]⟩, by simp [observe, valMatches]⟩
  | obj arr fs =>
    obtain ⟨⟨l, hl⟩, hf⟩ := observeFields_matches fs s
    refine ⟨⟨l ++ [⟨arr, (observeFields fs s).1⟩], by simp [observe, hl]⟩, ?_⟩
    simp only [observe, valMatches]
    refine ⟨(observeFields fs s).2.heap.length, ⟨arr, (observeFields fs s).1⟩,
      rfl, get_concat_self _ _, rfl, ?_⟩
    exact fieldsMatch_mono _ _ _ _ hf

theorem observeFields_matches (fs : DataList) (s : St) :
    (∃ l, ((observeFields fs s).2).heap = s.heap ++ l) ∧
      fieldsMatch ((observeFields fs s).2).heap ((observeFields fs s).1) fs := by
  cases fs with
  | nil => exact ⟨⟨[], by simp [observeFields]⟩, by simp [observeFields, fieldsMatch]⟩
  | cons k d rest =>
    obtain ⟨⟨l1, hl1⟩, hv⟩ := observe_matches d s
    rcases hobs : observe d s with ⟨v1, s1⟩
    rw [hobs] at hl1 hv
    obtain ⟨⟨l2, hl2⟩, hf⟩ := observeFields_matches rest { s1 with deps := s1.deps ++ [[]] }
    rcases hofs : observeFields rest { s1 with deps := s1.deps ++ [[]] } with ⟨slots2, s2⟩
    rw [hofs] at hl2 hf
    have hl2x : s2.heap = s1.heap ++ l2 := by simpa using hl2
    have hl1x : s1.heap = s.heap ++ l1 := hl1
    have hvx : valMatches s1.heap v1 d := hv
    have hgoal : observeFields (.cons k d rest) s
        = ((k, .reactive v1 s1.deps.length) :: slots2, s2) := by
      simp [observeFields, hobs, hofs]
    rw [hgoal]
    refine ⟨⟨l1 ++ l2, by simp [hl2x, hl1x, List.append_assoc]⟩, ?_⟩
    simp only [fieldsMatch]
    refine ⟨v1, s1.deps.length, slots2, rfl, ?_, hf⟩
    rw [hl2x]
    exact valMatches_mono _ _ _ _ hvx
end

/-- Converted field lists expose, at every key present in the data, a
reactive slot whose value matches the subtree. -/
theorem fieldsMatch_find : ∀ (fs : DataList) (h : List Obj)
    (slots : List (String × FieldSlot)) (k : String) (d' : Data),
    fieldsMatch h slots fs → dataListFind fs k = some d' →
    ∃ v dep, findSlot slots k = some (.reactive v dep) ∧ valMatches h v d'
  | .nil, h, slots, k, d', _, hf => by simp [dataListFind] at hf
  | .cons k' d rest, h, slots, k, d', hm, hf => by
    obtain ⟨v, dep, tail, hs, hv, ht⟩ := hm
    subst hs
    by_cases hk : k' = k
    · subst hk
      simp [dataListFind] at hf
      subst hf
      exact ⟨v, dep, by simp [findSlot], hv⟩
    · simp [dataListFind, hk] at hf
      obtain ⟨v2, dep2, hfind, hv2⟩ := fieldsMatch_find rest h tail k d' ht hf
      exact ⟨v2, dep2, by simp [findSlot, hk, hfind], hv2⟩

/-- Resolving a key path against a converted image returns exactly the
primitive stored at that path in the original data tree. -/
theorem resolve_init (p : List String) (d : Data) (pr : Prim) (v : Value) (s : St)
    (hm : valMatches s.heap v d) (hl : dataLookup d p = some (.prim pr)) :
    (resolveVal p v s).1 = .ok (.prim pr) := by
  induction p generalizing d v s with
  | nil =>
    simp only [dataLookup, Option.some.injEq] at hl
    subst hl
    simp only [valMatches] at hm
    subst hm
    rfl
  | cons k rest ih =>
    cases d with
    | prim p2 => simp [dataLookup] at hl
    | obj arr fs =>
      simp only [dataLookup] at hl
      rcases hdf : dataListFind fs k with _ | d'
      · rw [hdf] at hl
        simp at hl
      · rw [hdf] at hl
        simp only [valMatches] at hm
        obtain ⟨a, o, hv, hg, ha, hf⟩ := hm
        obtain ⟨v', dep, hfind, hm'⟩ := fieldsMatch_find fs s.heap o.fields k d' hf hdf
        subst hv
        have hread : (readProp (.ref a) k s).1 = .ok v' :=
          readProp_reactive_val a k s o v' dep hg hfind
        have hheap := (readProp_frame (.ref a) k s).1
        rcases hr : readProp (.ref a) k s with ⟨r, s1⟩
        rw [hr] at hread hheap
        unfold resolveVal
        rw [hr]
        cases r with
        | error e => simp at hread
        | ok v2 =>
          simp only [Prod.fst] at hread
          have hv2 : v2 = v' := by simpa using hread
          rw [hv2]
          exact ih d' v' s1 (by rw [show s1.heap = s.heap from hheap]; exact hm') hl

end Reactive

namespace Reactive

/-- A failed construction leaves `Dep.target` pointing at the watcher. -/
theorem mkWatcher_target_err (vm : Value) (key : List String) (cb : Callback) (s : St)
    (e : JSErr) (s2 : St) (h : mkWatcher vm key cb s = (.error e, s2)) :
    s2.target = some s.watchers.length := by
  have hfr := (update_frame s.watchers.length (discState vm key cb s)).2.1
  unfold mkWatcher at h
  rcases hu : update s.watchers.length (discState vm key cb s) with ⟨r, s3⟩
  rw [hu] at h hfr
  cases r with
  | error e2 =>
    simp only [Prod.mk.injEq, Except.error.injEq] at h
    obtain ⟨he, hs⟩ := h
    rw [← hs]
    exact hfr.trans (by simp [discState])
  | ok u => simp at h

/-- A successful construction clears `Dep.target`. -/
theorem mkWatcher_target_ok (vm : Value) (key : List String) (cb : Callback) (s : St)
    (w : Nat) (s2 : St) (h : mkWatcher vm key cb s = (.ok w, s2)) :
    s2.target = none := by
  unfold mkWatcher at h
  rcases hu : update s.watchers.length (discState vm key cb s) with ⟨r, s3⟩
  rw [hu] at h
  cases r with
  | error e2 => simp at h
  | ok u =>
    simp only [Prod.mk.injEq, Except.ok.injEq] at h
    obtain ⟨hw, hs⟩ := h
    rw [← hs]

/-- A failing discovery pass makes the whole construction fail. -/
theorem mkWatcher_err_of_update (vm : Value) (key : List String) (cb : Callback)
    (s : St) (e : JSErr) (s2 : St)
    (h : update s.watchers.length (discState vm key cb s) = (.error e, s2)) :
    mkWatcher vm key cb s = (.error e, s2) := by
  unfold mkWatcher
  rw [h]

/-- Every log entry present after a construction was already there, or
is an `addSub`, or is the new watcher's `update` entry, or is a `cbCall`
of the new watcher carrying `Dep.target = some wid` — the callback can
only ever have been invoked while the context pointed at the watcher
under construction. -/
theorem mkWatcher_mem_log (vm : Value) (key : List String) (cb : Callback) (s : St)
    {e : Event} (he : e ∈ ((mkWatcher vm key cb s).2).log) :
    e ∈ s.log ∨ (∃ d w', e = .addSub d w') ∨ e = .update s.watchers.length ∨
      ∃ v, e = .cbCall s.watchers.length v (some s.watchers.length) := by
  unfold mkWatcher at he
  rcases hu : update s.watchers.length (discState vm key cb s) with ⟨r, s3⟩
  rw [hu] at he
  have he3 : e ∈ s3.log := by
    cases r with
    | error e2 => exact he
    | ok u => exact he
  have hm := update_mem_log s.watchers.length (discState vm key cb s)
    (e := e) (by rw [hu]; exact he3)
  rcases hm with h1 | h1 | h1 | ⟨v, h1⟩
  · exact Or.inl (by simpa [discState] using h1)
  · exact Or.inr (Or.inl h1)
  · exact Or.inr (Or.inr (Or.inl h1))
  · refine Or.inr (Or.inr (Or.inr ⟨v, ?_⟩))
    simpa [discState] using h1

/-- Every slot produced by the conversion walk is an intercepted
accessor pair. -/
theorem observeFields_reactive : ∀ (fs : DataList) (s : St) (q : String × FieldSlot),
    q ∈ (observeFields fs s).1 → ∃ v dep, q.2 = FieldSlot.reactive v dep
  | .nil, _, q, h => by simp [observeFields] at h
  | .cons k d rest, s, q, h => by
    simp only [observeFields] at h
    rcases List.mem_cons.mp h with h1 | h1
    · exact ⟨_, _, by rw [h1]⟩
    · exact observeFields_reactive rest _ q h1

end Reactive

namespace Reactive

/-! ### Claim C1 -/

/-- C1 (counterexample): the claim that the Ambient Tracking Context is
cleared on every exit path of the discovery pass is false.  In
`{a: undefined, b: 0}`, constructing a watcher on `"a.x"` throws while
resolving `.x`; `Dep.target` is then still `some 0` (there is no
`try/finally` around `Dep.target = null`), and the unrelated field read
of `b` immediately afterwards registers the dead watcher into `b`'s
subscription (`deps` become `[[0], [0]]`). -/
theorem C1_counterexample :
    (mkWatcher (.ref 0) ["a", "x"] .noop c1S).1
        = .error (.typeError "x" (.prim .undef)) ∧
    c1Fail.target = some 0 ∧
    ((readProp (.ref 0) "b" c1Fail).2).deps = [[0], [0]] := by decide

/-- C1 (amended): `Dep.target` is cleared only on the successful exit
path of a `Watcher` construction.  If key-path resolution or the initial
callback raises, the constructor aborts with `Dep.target` still pointing
at the watcher under construction, and any later read of a reactive
field registers that stale watcher into the field's subscription. -/
theorem C1_theorem (vm : Value) (key : List String) (cb : Callback) (s : St) :
    (∀ e s2, mkWatcher vm key cb s = (.error e, s2) →
      s2.target = some s.watchers.length) ∧
    (∀ w s2, mkWatcher vm key cb s = (.ok w, s2) → s2.target = none) ∧
    (∀ e s2 a o k2 v2 d2, mkWatcher vm key cb s = (.error e, s2) →
      s2.heap.get? a = some o → findSlot o.fields k2 = some (.reactive v2 d2) →
      (readProp (.ref a) k2 s2).2 = addSub s2 d2 s.watchers.length) := by
  refine ⟨fun e s2 h => mkWatcher_target_err vm key cb s e s2 h,
          fun w s2 h => mkWatcher_target_ok vm key cb s w s2 h,
          fun e s2 a o k2 v2 d2 h hg hf => ?_⟩
  exact readProp_reactive_target a k2 s2 o v2 d2 s.watchers.length hg hf
    (mkWatcher_target_err vm key cb s e s2 h)

/-- C1 (witness): the amended statement instantiated on the
`{a: undefined, b: 0}` scenario. -/
theorem C1_witness :
    c1Fail.target = some c1S.watchers.length ∧
    (readProp (.ref 0) "b" c1Fail).2 = addSub c1Fail 1 c1S.watchers.length := by
  have h := C1_theorem (.ref 0) ["a", "x"] .noop c1S
  constructor
  · exact h.1 (.typeError "x" (.prim .undef)) c1Fail (by decide)
  · exact h.2.2 (.typeError "x" (.prim .undef)) c1Fail 0
      ⟨false, [("a", .reactive (.prim .undef) 0), ("b", .reactive (.prim (.num 0)) 1)]⟩
      "b" (.prim (.num 0)) 1 (by decide) (by decide) (by decide)

/-! ### Claim C2 -/

/-- C2 (counterexample): per-watcher failure isolation in `notify()` is
false.  In `{a: 1}` with watcher 0 (callback throws on value `2`) and
watcher 1 recorded in that order (`subs = [0, 1]`), the write `a = 2`
aborts with the callback's error after updating only watcher 0: the new
log fragment contains `update 0` but no `update 1`. -/
theorem C2_counterexample :
    c2S.deps = [[0, 1]] ∧
    (setProp 0 "a" (.prim (.num 2)) c2S).1 = .error .userErr ∧
    updatesOf (((setProp 0 "a" (.prim (.num 2)) c2S).2).log.drop c2S.log.length)
      = [0] := by decide

/-- C2 (amended): `Dep.notify`'s `forEach` has no error isolation: if a
recorded watcher's `update()` raises, the fan-out stops at that watcher
— the error propagates to the writer and none of the remaining recorded
watchers is updated (the final state is exactly the failing update's
state). -/
theorem C2_theorem (w : Nat) (ws : List Nat) (s s1 : St) (e : JSErr)
    (h : update w s = (.error e, s1)) :
    notifyGo (w :: ws) s = (.error e, s1) := by
  unfold notifyGo
  rw [h]

/-- C2 (witness): the amended statement instantiated on the `{a: 1}`
scenario at the write `a = 2`. -/
theorem C2_witness :
    notifyGo [0, 1] (setSlot c2S 0 "a" (.reactive (.prim (.num 2)) 0))
      = (.error .userErr,
         (update 0 (setSlot c2S 0 "a" (.reactive (.prim (.num 2)) 0))).2) :=
  C2_theorem 0 [1] _ _ .userErr (by decide)

/-! ### Claim C3 -/

/-- C3 (counterexample): the claim that the context is cleared strictly
before the initial callback runs is false.  In `{a: 1, b: 2}`, a watcher
on `"a"` whose callback reads `"b"` is constructed successfully, yet the
callback ran with `Dep.target` still pointing at the watcher (the
`cbCall` event carries `some 0`), and the read of `b` inside the
callback registered the watcher into `b`'s subscription
(`deps = [[0], [0]]`). -/
theorem C3_counterexample :
    (mkWatcher (.ref 0) ["a"] (.readPath (.ref 0) ["b"]) c3S).1 = .ok 0 ∧
    ((mkWatcher (.ref 0) ["a"] (.readPath (.ref 0) ["b"]) c3S).2).deps
      = [[0], [0]] ∧
    Event.cbCall 0 (.prim (.num 1)) (some 0)
      ∈ ((mkWatcher (.ref 0) ["a"] (.readPath (.ref 0) ["b"]) c3S).2).log := by decide

/-- C3 (amended): the initial callback is invoked before `Dep.target` is
cleared, not after: every `cbCall` event newly logged during a `Watcher`
construction belongs to the watcher under construction and carries
`Dep.target = some wid`, so field reads performed inside the initial
callback do register subscribers. -/
theorem C3_theorem (vm : Value) (key : List String) (cb : Callback) (s : St)
    (e : Event) (he : e ∈ ((mkWatcher vm key cb s).2).log) (hnew : e ∉ s.log)
    (w : Nat) (v : Value) (tg : Option Nat) (hcb : e = .cbCall w v tg) :
    w = s.watchers.length ∧ tg = some s.watchers.length := by
  rcases mkWatcher_mem_log vm key cb s he with h1 | ⟨d, w2, h1⟩ | h1 | ⟨v2, h1⟩
  · exact absurd h1 hnew
  · rw [hcb] at h1
    exact absurd h1 (by simp)
  · rw [hcb] at h1
    exact absurd h1 (by simp)
  · rw [hcb] at h1
    simp only [Event.cbCall.injEq] at h1
    obtain ⟨hw, _, ht⟩ := h1
    exact ⟨hw, ht⟩

/-- C3 (witness): the amended statement instantiated on the
`{a: 1, b: 2}` scenario's `cbCall` event. -/
theorem C3_witness :
    (0 : Nat) = c3S.watchers.length ∧ some 0 = some c3S.watchers.length :=
  C3_theorem (.ref 0) ["a"] (.readPath (.ref 0) ["b"]) c3S
    (.cbCall 0 (.prim (.num 1)) (some 0)) (by decide) (by decide)
    0 (.prim (.num 1)) (some 0) rfl

/-! ### Claim C4 -/

/-- C4 (counterexample): the error raised by a failed resolution does
not identify the root object, the full path or the failing segment
index.  Resolving `"x.y"` on `{x: undefined}` (failure index 1) and
`"p.x.y"` on `{p: {x: undefined}}` (failure index 2, different root)
raise the identical `TypeError` value, so no function of the raised
error can recover the index (nor, a fortiori, the path or the root). -/
theorem C4_counterexample :
    ¬ ∃ f : JSErr → Nat,
      ∀ (p : List String) (v : Value) (s : St) (e : JSErr) (i : Nat),
        (resolveVal p v s).1 = .error e → failIdx p v s = some i → f e = i := by
  rintro ⟨f, hf⟩
  have h1 := hf ["x", "y"] c4RootA c4SA (.typeError "y" (.prim .undef)) 1
    (by decide) (by decide)
  have h2 := hf ["p", "x", "y"] c4RootB c4SB (.typeError "y" (.prim .undef)) 2
    (by decide) (by decide)
  exact absurd (h1.symm.trans h2) (by decide)

/-- C4 (amended): reading a segment on an absent (`undefined`/`null`)
intermediate value makes resolution throw the engine's `TypeError` —
which carries only the failing property name and the absent base, not a
structured record of root, path and index — and a failing discovery pass
makes the whole `Watcher` construction fail, so no usable watcher is
returned. -/
theorem C4_theorem (s : St) (v : Value) (k : String) (rest : List String)
    (h : v = .prim .undef ∨ v = .prim .null) :
    resolveVal (k :: rest) v s = (.error (.typeError k v), s) ∧
    (∀ (vm : Value) (key : List String) (cb : Callback) (s' : St) (e : JSErr)
        (s2 : St),
      update s'.watchers.length (discState vm key cb s') = (.error e, s2) →
      mkWatcher vm key cb s' = (.error e, s2)) := by
  constructor
  · rcases h with h | h <;> subst h <;> rfl
  · exact fun vm key cb s' e s2 hu => mkWatcher_err_of_update vm key cb s' e s2 hu

/-- C4 (witness): the amended statement instantiated at the failing
step of scenario A. -/
theorem C4_witness :
    resolveVal ["y"] (.prim .undef) c4SA
      = (.error (.typeError "y" (.prim .undef)), c4SA) :=
  (C4_theorem c4SA (.prim .undef) "y" [] (Or.inl rfl)).1

/-! ### Claim C5 -/

/-- C5 (counterexample): the claim that converting an array observes the
reference only is false.  Converting `{xs: [7]}` turns element index
`"0"` of the array into an intercepted reactive slot with its own
subscription (dep 0); the array check `typeof data !== 'object'` does
not exclude arrays. -/
theorem C5_counterexample :
    (observe c5Data st0).2.heap.get? 0
      = some ⟨true, [("0", .reactive (.prim (.num 7)) 0)]⟩ ∧
    (observe c5Data st0).2.deps.length = 2 := by decide

/-- C5 (amended): `Observer.observe` recurses into arrays exactly as
into plain objects (arrays pass the `typeof === 'object'` test): every
own enumerable field of a converted array — i.e. every element index —
becomes an intercepted reactive slot with its own subscription. -/
theorem C5_theorem (es : DataList) (s : St) :
    ∃ a o, (observe (.obj true es) s).1 = .ref a ∧
      ((observe (.obj true es) s).2).heap.get? a = some o ∧ o.isArray = true ∧
      ∀ q ∈ o.fields, ∃ v dep, q.2 = FieldSlot.reactive v dep := by
  refine ⟨(observeFields es s).2.heap.length, ⟨true, (observeFields es s).1⟩,
    ?_, ?_, rfl, ?_⟩
  · simp [observe]
  · simp only [observe]
    exact get_concat_self _ _
  · intro q hq
    exact observeFields_reactive es s q hq

end Reactive

namespace Reactive

/-! ### Claim C6 -/

/-- C6 (counterexample): the claim that no post-construction `update()`
ever appends the watcher to a subscription is false.  In
`{a: undefined}`, the watcher on `"a.b"` registers into `a`'s dep
(`deps = [[0]]`) and then fails, leaking `Dep.target = some 0`; the
later write `a = {b: 5}` succeeds and its notify-triggered `update()`
re-reads `a`'s getter with the leaked target, appending the watcher a
second time (`deps = [[0, 0]]`) — the new log fragment shows the extra
`addSub` after the `update`. -/
theorem C6_counterexample :
    c6S2.deps = [[0]] ∧ c6S2.target = some 0 ∧
    (setProp 0 "a" (.ref 1) c6S2).1 = .ok () ∧
    ((setProp 0 "a" (.ref 1) c6S2).2).deps = [[0, 0]] ∧
    ((setProp 0 "a" (.ref 1) c6S2).2).log.drop c6S2.log.length
      = [.update 0, .addSub 0 0, .cbCall 0 (.prim (.num 5)) (some 0)] := by decide

/-- C6 (amended): the one-shot-dependency invariant holds exactly when
`Dep.target` is clear at the time `update()` runs (which is the case
after every successful construction): with no active target, `update()`
leaves every subscription list unchanged and the target clear.  After a
FAILED construction the leaked target breaks the invariant, as the
counterexample shows. -/
theorem C6_theorem (w : Nat) (s : St) (h : s.target = none) :
    ((update w s).2).deps = s.deps ∧ ((update w s).2).target = none :=
  update_none_deps w s h

/-- C6 (witness): the amended statement instantiated on `{a: 1}` after
a successful construction. -/
theorem C6_witness :
    ((update 0 c6Ok).2).deps = c6Ok.deps ∧ ((update 0 c6Ok).2).target = none :=
  C6_theorem 0 c6Ok (by decide)

/-! ### Claim C7 -/

/-- C7: writing a value different (by strict equality) from the current
one to a converted field invokes `update()` — and, on success, the
callback — of exactly the watchers recorded in that field's
subscription, once per recorded entry, in recording order, synchronously
within the write (the events are part of the write's own log fragment). -/
theorem C7_theorem (a : Nat) (k : String) (nv : Value) (s : St) (o : Obj)
    (val : Value) (dep : Nat) (subs : List Nat)
    (h1 : s.heap.get? a = some o)
    (h2 : findSlot o.fields k = some (.reactive val dep))
    (hne : ¬ val = nv)
    (hsubs : s.deps.get? dep = some subs)
    (hw : ∀ w ∈ subs, w < s.watchers.length)
    (hok : (setProp a k nv s).1 = .ok ()) :
    ∃ t, ((setProp a k nv s).2).log = s.log ++ t ∧
      updatesOf t = subs ∧ cbCallsOf t = subs := by
  rw [setProp_reactive a k nv s o val dep h1 h2 hne] at hok ⊢
  have hd : (setSlot s a k (.reactive nv dep)).deps = s.deps := by
    simp only [setSlot, h1]
  have hwch : (setSlot s a k (.reactive nv dep)).watchers = s.watchers := by
    simp only [setSlot, h1]
  have hlg : (setSlot s a k (.reactive nv dep)).log = s.log := by
    simp only [setSlot, h1]
  unfold notify at hok ⊢
  have hgd : (setSlot s a k (.reactive nv dep)).deps.getD dep [] = subs := by
    rw [hd]
    exact getD_of_get _ hsubs
  rw [hgd] at hok ⊢
  obtain ⟨t, hlog, hu, hc⟩ := notifyGo_log_ok subs _
    (fun w hw2 => ⟨_, by rw [hwch]; exact List.get?_eq_get (hw w hw2)⟩) hok
  exact ⟨t, by rw [hlog, hlg], hu, hc⟩

/-- C7 (witness): `{a: 1}` with two recorded watchers; the write `a = 2`
produces exactly the update/callback events `[0, 1]`, in order. -/
theorem C7_witness :
    ∃ t, ((setProp 0 "a" (.prim (.num 2)) c7S).2).log = c7S.log ++ t ∧
      updatesOf t = [0, 1] ∧ cbCallsOf t = [0, 1] :=
  C7_theorem 0 "a" (.prim (.num 2)) c7S
    ⟨false, [("a", .reactive (.prim (.num 1)) 0)]⟩ (.prim (.num 1)) 0 [0, 1]
    (by decide) (by decide) (by decide) (by decide) (by decide) (by decide)

/-! ### Claim C8 -/

/-- C8: writing a value strictly equal to a converted field's current
value is a complete no-op — the setter returns with the whole state
unchanged: same stored values, no notification, no callback, no log
entry, no registration. -/
theorem C8_theorem (a : Nat) (k : String) (nv : Value) (s : St) (o : Obj)
    (val : Value) (dep : Nat)
    (h1 : s.heap.get? a = some o)
    (h2 : findSlot o.fields k = some (.reactive val dep))
    (heq : val = nv) :
    setProp a k nv s = (.ok (), s) :=
  setProp_reactive_eq a k nv s o val dep h1 h2 heq

/-- C8 (witness): `{a: 1}` with one recorded watcher; the write `a = 1`
returns the state unchanged. -/
theorem C8_witness : setProp 0 "a" (.prim (.num 1)) c8S = (.ok (), c8S) :=
  C8_theorem 0 "a" (.prim (.num 1)) c8S
    ⟨false, [("a", .reactive (.prim (.num 1)) 0)]⟩ (.prim (.num 1)) 0
    (by decide) (by decide) (by decide)

/-! ### Claim C9 -/

/-- C9: read-after-write for converted objects.  (1) Immediately after
conversion, resolving any key path that reaches a primitive in the
original data returns exactly that initial value — at arbitrary nesting
depth.  (2) After any write to a converted (possibly nested) field,
reading that field returns the last value assigned, whatever the
notify fan-out did. -/
theorem C9_theorem (fs : DataList) (s : St) (p : List String) (pr : Prim)
    (a : Nat) (k : String) (nv : Value) (s2 : St) (o : Obj) (val : Value)
    (dep : Nat)
    (hp : dataLookup (.obj false fs) p = some (.prim pr))
    (h1 : s2.heap.get? a = some o)
    (h2 : findSlot o.fields k = some (.reactive val dep)) :
    (resolveVal p (observe (.obj false fs) s).1 ((observe (.obj false fs) s).2)).1
        = .ok (.prim pr) ∧
    (readProp (.ref a) k ((setProp a k nv s2).2)).1 = .ok nv := by
  constructor
  · exact resolve_init p (.obj false fs) pr _ _
      (observe_matches (.obj false fs) s).2 hp
  · exact setProp_then_read a k nv s2 o val dep h1 h2

/-- C9 (witness): on `{a: {b: 5}}`, the initial read of `"a.b"` returns
`5`, and after writing `9` to the nested field `b` a read returns `9`. -/
theorem C9_witness :
    (resolveVal ["a", "b"] (observe (.obj false c9Fields) st0).1
        ((observe (.obj false c9Fields) st0).2)).1 = .ok (.prim (.num 5)) ∧
    (readProp (.ref 0) "b" ((setProp 0 "b" (.prim (.num 9)) c9S).2)).1
      = .ok (.prim (.num 9)) :=
  C9_theorem c9Fields st0 ["a", "b"] (.num 5) 0 "b" (.prim (.num 9)) c9S
    ⟨false, [("b", .reactive (.prim (.num 5)) 0)]⟩ (.prim (.num 5)) 0
    rfl (by decide) (by decide)

/-! ### Claim C10 -/

/-- C10: each own key of `options.data` is mirrored on the instance by
`_proxy`: reading `vm.k` is exactly the read of `$data[k]` (through the
field's getter) and returns the field's current value; writing
`vm.k = x` is exactly the write `$data[k] = x` (through the field's
intercepted setter), so an equal write is a no-op and after any write
reading `vm.k` returns the written value — the instance stores no copy
of its own. -/
theorem C10_theorem (i : VueInst) (k : String) (s : St) (o : Obj)
    (val : Value) (dep : Nat) (nv : Value)
    (hk : k ∈ i.keys)
    (h1 : s.heap.get? i.dataAddr = some o)
    (h2 : findSlot o.fields k = some (.reactive val dep)) :
    vmGet i k s = readProp (.ref i.dataAddr) k s ∧
    (vmGet i k s).1 = .ok val ∧
    vmSet i k nv s = setProp i.dataAddr k nv s ∧
    (val = nv → vmSet i k nv s = (.ok (), s)) ∧
    (vmGet i k ((vmSet i k nv s).2)).1 = .ok nv := by
  have hg : vmGet i k s = readProp (.ref i.dataAddr) k s := by
    simp [vmGet, hk]
  have hs : vmSet i k nv s = setProp i.dataAddr k nv s := by
    simp [vmSet, hk]
  refine ⟨hg, ?_, hs, ?_, ?_⟩
  · rw [hg]
    exact readProp_reactive_val _ _ _ _ _ _ h1 h2
  · intro he
    rw [hs]
    exact setProp_reactive_eq _ _ _ _ _ _ _ h1 h2 he
  · rw [hs]
    have hrw := setProp_then_read i.dataAddr k nv s o val dep h1 h2
    simpa [vmGet, hk] using hrw

/-- C10 (witness): on `{k: 1}`, `vm.k` reads `$data.k` and returns `1`;
after `vm.k = 2`, `vm.k` returns `2`. -/
theorem C10_witness :
    vmGet c10Vm "k" c10S = readProp (.ref c10Vm.dataAddr) "k" c10S ∧
    (vmGet c10Vm "k" c10S).1 = .ok (.prim (.num 1)) ∧
    (vmGet c10Vm "k" ((vmSet c10Vm "k" (.prim (.num 2)) c10S).2)).1
      = .ok (.prim (.num 2)) := by
  obtain ⟨ha, hb, hc, hd, he⟩ := C10_theorem c10Vm "k" c10S
    ⟨false, [("k", .reactive (.prim (.num 1)) 0)]⟩ (.prim (.num 1)) 0
    (.prim (.num 2)) (by decide) (by decide) (by decide)
  exact ⟨ha, hb, he⟩

end Reactive
